/-
  Verification of the coordinate-to-crop pipeline of DocumentAI
  (document_ocr_with_coordinates.py and the duplicated logic in
  form_parser_with_coordinates.py).

  The Python source is shallowly embedded over exact rationals (ℚ):
  Python floats become ℚ, Python ints become ℤ/ℕ, dicts become
  structures, `Optional` returns become `Option`, and the defensive
  `hasattr` probes of the source become `Option` fields.  I/O side
  effects (PIL file loading/saving, printing) are outside the model;
  the pure coordinate computations are embedded faithfully.
-/
import Mathlib

namespace DocumentAI

/-- Python `int(q)` on a real value: truncation toward zero. -/
def pyInt (q : ℚ) : ℤ := if q < 0 then -⌊-q⌋ else ⌊q⌋

/-- A normalized point, source dict `{"x": float, "y": float}`. -/
structure PointQ where
  x : ℚ
  y : ℚ
deriving Repr, DecidableEq

/-- A bounding box dict as built by the source:
`{"left","top","right","bottom","width","height"}`, all floats. -/
structure BBoxQ where
  left : ℚ
  top : ℚ
  right : ℚ
  bottom : ℚ
  width : ℚ
  height : ℚ
deriving Repr, DecidableEq

/-- Pixel-coordinate box, the `pixel_coordinates` dict of
`_crop_figure_from_page` (ints). -/
structure PixelBox where
  left : ℤ
  top : ℤ
  right : ℤ
  bottom : ℤ
deriving Repr, DecidableEq

/-! ## Keyword estimator (`_create_estimated_image_area`, lines 681-727)

The source takes a matching-block dict (`block_idx`, `text`, `keyword`,
`left`, `top`, `right`, `bottom`), the keyword and an instance number,
and returns the estimated-area dict. -/

/-- A matching block found by `_extract_estimated_image_areas_by_keywords`:
the dict built at source lines 646-654. -/
structure TextBlockMatch where
  block_idx : ℕ
  text : String
  keyword : String
  left : ℚ
  top : ℚ
  right : ℚ
  bottom : ℚ
deriving Repr, DecidableEq

/-- The `self.area_offset` configuration dict (source lines 52-57). -/
structure AreaOffset where
  top : ℚ
  bottom : ℚ
  left : ℚ
  right : ℚ
deriving Repr, DecidableEq

/-- Default offsets from the constructor:
top 10%, bottom 10%, left 15%, right 15%. -/
def defaultAreaOffset : AreaOffset :=
  { top := 1/10, bottom := 1/10, left := 15/100, right := 15/100 }

/-- The estimated-area dict returned by `_create_estimated_image_area`
(only the fields the source actually sets). -/
structure EstimatedArea where
  page : ℕ
  element_id : String
  type : String
  source : String
  estimated_type : String
  coordinates : List PointQ
  bounding_box : BBoxQ
deriving Repr, DecidableEq

/-- Embedding of `_create_estimated_image_area` (source lines 681-727):
center of the matched text block, offsets applied and clamped to the
unit page, `"page": 1` hard-coded. -/
def createEstimatedImageArea (offset : AreaOffset) (text_block : TextBlockMatch)
    (keyword : String) (instance_num : ℕ) : EstimatedArea :=
  let text_center_x : ℚ := (text_block.left + text_block.right) / 2
  let text_center_y : ℚ := (text_block.top + text_block.bottom) / 2
  let estimated_left : ℚ := max 0 (text_center_x - offset.left)
  let estimated_right : ℚ := min 1 (text_center_x + offset.right)
  let estimated_top : ℚ := max 0 (text_center_y - offset.top)
  let estimated_bottom : ℚ := min 1 (text_center_y + offset.bottom)
  { page := 1
    element_id := "keyword_" ++ keyword ++ "_" ++ toString instance_num
    type := "estimated_figure"
    source := "keyword_search"
    estimated_type := keyword ++ "_area"
    coordinates :=
      [ { x := estimated_left, y := estimated_top }
      , { x := estimated_right, y := estimated_top }
      , { x := estimated_right, y := estimated_bottom }
      , { x := estimated_left, y := estimated_bottom } ]
    bounding_box :=
      { left := estimated_left
        top := estimated_top
        right := estimated_right
        bottom := estimated_bottom
        width := estimated_right - estimated_left
        height := estimated_bottom - estimated_top } }

/-! ## Crop pixel conversion (`_crop_figure_from_page`, lines 914-959) -/

/-- The normalized-to-pixel conversion of `_crop_figure_from_page`
(source lines 923-927): `int(bbox * page_dimension)` per coordinate. -/
def cropPixelBox (bbox : BBoxQ) (page_width page_height : ℕ) : PixelBox :=
  { left := pyInt (bbox.left * page_width)
    top := pyInt (bbox.top * page_height)
    right := pyInt (bbox.right * page_width)
    bottom := pyInt (bbox.bottom * page_height) }

/-- A page-image record from `results["page_images"]` (the fields used
by `_extract_figure_images` and `_crop_figure_from_page`). -/
structure PageImage where
  page : ℕ
  pixel_width : ℕ
  pixel_height : ℕ
deriving Repr, DecidableEq

/-- A visual-element record from `results["visual_elements"]` (the
fields read by `_extract_figure_images` / `_crop_figure_from_page`). -/
structure Figure where
  page : ℕ
  element_id : String
  type : String
  bounding_box : BBoxQ
deriving Repr, DecidableEq

/-- The successful-crop record returned by `_crop_figure_from_page`
(source lines 941-955; file names and paths are outside the model). -/
structure CroppedInfo where
  page : ℕ
  element_id : String
  pixel_coordinates : PixelBox
  width : ℤ
  height : ℤ
deriving Repr, DecidableEq

/-- Embedding of `_crop_figure_from_page` (source lines 914-959).
The source performs no box validation: it converts the normalized box
to pixels and hands the pixel box to PIL `crop` directly.  The
`except` branch only fires on I/O failures (file open/save), which are
outside the model, so the embedded pure computation always returns
`some`. -/
def cropFigureFromPage (figure : Figure) (page_image : PageImage) :
    Option CroppedInfo :=
  let bbox := figure.bounding_box
  let left := pyInt (bbox.left * page_image.pixel_width)
  let top := pyInt (bbox.top * page_image.pixel_height)
  let right := pyInt (bbox.right * page_image.pixel_width)
  let bottom := pyInt (bbox.bottom * page_image.pixel_height)
  some
    { page := figure.page
      element_id := figure.element_id
      pixel_coordinates := { left := left, top := top, right := right, bottom := bottom }
      width := right - left
      height := bottom - top }

/-- The error taxonomy of spec section 7 for the cropper. -/
inductive CropError where
  | invalidBox
  | outOfBounds
deriving Repr, DecidableEq

/-- Modelled from the spec (section 4.5), for comparison with the
source `cropFigureFromPage`: "Fails with `InvalidBox` if `left >=
right OR top >= bottom` (degenerate/zero-area box) or if any
coordinate is negative", on the converted pixel box. -/
def cropSpecChecked (bbox : BBoxQ) (page_width page_height : ℕ) :
    Except CropError PixelBox :=
  let p := cropPixelBox bbox page_width page_height
  if p.left ≥ p.right ∨ p.top ≥ p.bottom ∨
     p.left < 0 ∨ p.top < 0 ∨ p.right < 0 ∨ p.bottom < 0 then
    Except.error CropError.invalidBox
  else
    Except.ok p

/-- Lookup of the page raster matching a figure's page number, the
`next((img for img in results["page_images"] if img["page"] == page_num),
None)` of `_extract_figure_images` (source lines 892-895). -/
def findPageImage (page_images : List PageImage) (page_num : ℕ) :
    Option PageImage :=
  page_images.find? (fun img => img.page == page_num)

/-- Embedding of the crop loop of `_extract_figure_images` (source
lines 870-912): filter the figure-like elements, pair each with its
page raster (skipping figures whose raster is missing), crop, and
collect only the successful crops. -/
def extractFigureImages (visual_elements : List Figure)
    (page_images : List PageImage) : List CroppedInfo :=
  let figure_elements := visual_elements.filter
    (fun e => e.type == "figure" || e.type == "estimated_figure" ||
              e.type == "potential_image")
  figure_elements.filterMap
    (fun fig => (findPageImage page_images fig.page).bind
      (fun img => cropFigureFromPage fig img))

/-! ## Python string primitives

`full_text[start:end]` and `.strip()` as used by the extractors. -/

/-- Python slice `s[a:b]`: a negative endpoint is interpreted relative
to the end of the string, then both endpoints are clamped to
`[0, len(s)]`; the slice is empty when the normalized start is at or
past the normalized end.  Total: never raises. -/
def pySlice (s : String) (a b : ℤ) : String :=
  let n : ℤ := s.data.length
  let lo : ℤ := if a < 0 then max (n + a) 0 else min a n
  let hi : ℤ := if b < 0 then max (n + b) 0 else min b n
  String.mk ((s.data.drop lo.toNat).take (hi - lo).toNat)

/-- Modelled from the spec (section 4.1), for comparison with
`pySlice`: "out-of-range indices must be clamped to
`[0, len(full_text)]` rather than raising" — both endpoints clamped
into `[0, n]` with no relative-to-end interpretation. -/
def specClampSlice (s : String) (a b : ℤ) : String :=
  let n : ℤ := s.data.length
  let lo : ℤ := min (max a 0) n
  let hi : ℤ := min (max b 0) n
  String.mk ((s.data.drop lo.toNat).take (hi - lo).toNat)

/-- Python `str.strip()`: leading and trailing whitespace removed. -/
def pyStrip (s : String) : String :=
  String.mk (((s.data.dropWhile Char.isWhitespace).reverse.dropWhile
    Char.isWhitespace).reverse)

/-! ## Coordinate resolution (`_extract_text_block_with_coordinates`,
document_ocr_with_coordinates.py lines 280-328; the identical logic is
duplicated in form_parser_with_coordinates.py lines 431-480)

Each defensive `hasattr` probe of the source becomes an `Option`
field. -/

/-- A text segment of a text anchor; `start_index`/`end_index` may be
absent, in which case the source substitutes 0. -/
structure TextSegment where
  start_index : Option ℤ
  end_index : Option ℤ
deriving Repr, DecidableEq

/-- A text anchor; `text_segments` may be absent. -/
structure TextAnchor where
  text_segments : Option (List TextSegment)
deriving Repr, DecidableEq

/-- A normalized vertex; `x`/`y` may be absent (the source skips a
vertex that lacks either). -/
structure Vertex where
  x : Option ℚ
  y : Option ℚ
deriving Repr, DecidableEq

/-- A bounding polygon; `normalized_vertices` may be absent. -/
structure BoundingPoly where
  normalized_vertices : Option (List Vertex)
deriving Repr, DecidableEq

/-- A layout; `text_anchor` / `bounding_poly` may be absent. -/
structure Layout where
  text_anchor : Option TextAnchor
  bounding_poly : Option BoundingPoly
deriving Repr, DecidableEq

/-- A page block/element; `layout` may be absent. -/
structure Block where
  layout : Option Layout
deriving Repr, DecidableEq

/-- Resolution of one segment: `full_text[start_idx:end_idx]` with the
source's `if hasattr ... else 0` defaults (lines 297-299). -/
def segmentText (full_text : String) (seg : TextSegment) : String :=
  pySlice full_text (seg.start_index.getD 0) (seg.end_index.getD 0)

/-- The `block_data["text"]` accumulation of lines 293-299: the
concatenation of all resolved segment substrings, in span order. -/
def blockSourceText (block : Block) (full_text : String) : String :=
  match block.layout with
  | none => ""
  | some l =>
    match l.text_anchor with
    | none => ""
    | some ta =>
      match ta.text_segments with
      | none => ""
      | some segs => String.join (segs.map (segmentText full_text))

/-- The coordinate accumulation of lines 302-311: every vertex that
carries both `x` and `y` becomes a point, in order. -/
def blockCoordinates (block : Block) : List PointQ :=
  match block.layout with
  | none => []
  | some l =>
    match l.bounding_poly with
    | none => []
    | some poly =>
      match poly.normalized_vertices with
      | none => []
      | some vs =>
        vs.filterMap (fun v =>
          match v.x, v.y with
          | some x, some y => some { x := x, y := y }
          | _, _ => none)

/-- The `block_data` dict (lines 283-289); the empty
`"bounding_box": {}` of the initializer is modelled as `none`. -/
structure BlockData where
  page : ℕ
  block_id : ℕ
  text : String
  coordinates : List PointQ
  bounding_box : Option BBoxQ
deriving Repr, DecidableEq

/-- Embedding of `_extract_text_block_with_coordinates` (lines
280-328): resolve the text, resolve the coordinates, set the bounding
box from points 0 and 2 when at least 4 points resolved, and return
the block data only when the stripped text is non-empty (line 324:
`return block_data if block_data["text"].strip() else None`). -/
def extractTextBlockWithCoordinates (block : Block) (full_text : String)
    (page_num block_num : ℕ) : Option BlockData :=
  let text := blockSourceText block full_text
  let coords := blockCoordinates block
  let kept : List PointQ := if 4 ≤ coords.length then coords else []
  let bbox : Option BBoxQ :=
    if h : 4 ≤ coords.length then
      let p0 := coords.get ⟨0, by omega⟩
      let p2 := coords.get ⟨2, by omega⟩
      some { left := p0.x, top := p0.y, right := p2.x, bottom := p2.y,
             width := p2.x - p0.x, height := p2.y - p0.y }
    else none
  if (pyStrip text).data.isEmpty then none
  else some { page := page_num, block_id := block_num, text := text,
              coordinates := kept, bounding_box := bbox }

/-- The per-page text-block loop of `process_document_with_coordinates`
(lines 170-176): each block is extracted with `block_idx + 1`; a block
that resolves to `None` is dropped and its siblings keep processing. -/
def processPageBlocks (blocks : List Block) (full_text : String)
    (page_num : ℕ) : List BlockData :=
  blocks.enum.filterMap
    (fun p => extractTextBlockWithCoordinates p.2 full_text page_num (p.1 + 1))

/-! ## Region merging (`_merge_adjacent_areas`, lines 565-607) -/

/-- A candidate-area dict as built by the grid-gap estimator (lines
510-518) and consumed by `_merge_adjacent_areas`. -/
structure Area where
  left : ℚ
  top : ℚ
  right : ℚ
  bottom : ℚ
  width : ℚ
  height : ℚ
  area : ℚ
deriving Repr, DecidableEq

/-- The adjacency test of lines 588-591: some pair of opposite edge
coordinates differs by less than `1/grid_size * 1.1` in absolute
value.  There is no requirement of overlap along the perpendicular
axis. -/
def adjacentArea (grid_size : ℕ) (cur other : Area) : Prop :=
  |cur.right - other.left| < 1 / (grid_size : ℚ) * (11/10) ∨
  |cur.left - other.right| < 1 / (grid_size : ℚ) * (11/10) ∨
  |cur.bottom - other.top| < 1 / (grid_size : ℚ) * (11/10) ∨
  |cur.top - other.bottom| < 1 / (grid_size : ℚ) * (11/10)

instance adjacentAreaDecidable (grid_size : ℕ) (cur other : Area) :
    Decidable (adjacentArea grid_size cur other) := by
  unfold adjacentArea
  infer_instance

/-- The union step of lines 594-600: bounding union of the two boxes,
with `width`/`height`/`area` recomputed. -/
def mergeInto (cur other : Area) : Area :=
  let l := min cur.left other.left
  let t := min cur.top other.top
  let r := max cur.right other.right
  let b := max cur.bottom other.bottom
  { left := l, top := t, right := r, bottom := b,
    width := r - l, height := b - t, area := (r - l) * (b - t) }

/-- One pass of the inner `for j, other_area in enumerate(areas)` loop
(lines 583-603): skip used indices, absorb each adjacent area into the
running union and mark it used.  Returns the grown area, the grown
used set, the `changed` flag, and (ghost data for the proofs) the list
of indices absorbed during the pass. -/
def absorbPass (grid_size : ℕ) (cur : Area) (used : Finset ℕ) :
    List (ℕ × Area) → Area × Finset ℕ × Bool × List ℕ
  | [] => (cur, used, false, [])
  | (j, other) :: rest =>
    if j ∈ used then absorbPass grid_size cur used rest
    else if adjacentArea grid_size cur other then
      let r := absorbPass grid_size (mergeInto cur other) (insert j used) rest
      (r.1, r.2.1, true, j :: r.2.2.2)
    else absorbPass grid_size cur used rest

/-- The `while changed:` loop of lines 580-603, run with explicit
fuel.  Every pass that reports `changed` inserts at least one fresh
index into `used`, so at most `areas.length` passes can change and
fuel `areas.length + 1` (what `mergeLoop` supplies) reaches the same
fixpoint the unbounded loop would. -/
def absorbLoop (grid_size : ℕ) (pairs : List (ℕ × Area)) :
    ℕ → Area → Finset ℕ → Area × Finset ℕ × List ℕ
  | 0, cur, used => (cur, used, [])
  | fuel + 1, cur, used =>
    let r := absorbPass grid_size cur used pairs
    if r.2.2.1 then
      let r2 := absorbLoop grid_size pairs fuel r.1 r.2.1
      (r2.1, r2.2.1, r.2.2.2 ++ r2.2.2)
    else (r.1, r.2.1, r.2.2.2)

/-- The outer `for i, area in enumerate(areas)` loop of lines 571-605:
each unvisited index seeds a cluster (`current_area = area.copy()`,
`used.add(i)`), the cluster absorbs adjacent areas to a fixpoint, and
the cluster's union is emitted.  Each emitted area is paired (ghost
data for the proofs) with the indices of the inputs it absorbed,
seed first. -/
def mergeLoop (grid_size : ℕ) (pairs : List (ℕ × Area)) :
    List (ℕ × Area) → Finset ℕ → List (Area × List ℕ)
  | [], _ => []
  | (i, area0) :: rest, used =>
    if i ∈ used then mergeLoop grid_size pairs rest used
    else
      let r := absorbLoop grid_size pairs (pairs.length + 1) area0 (insert i used)
      (r.1, i :: r.2.2) :: mergeLoop grid_size pairs rest r.2.1

/-- Embedding of `_merge_adjacent_areas` (lines 565-607), instrumented
with the index groups. -/
def mergeAdjacentAreasG (areas : List Area) (grid_size : ℕ) :
    List (Area × List ℕ) :=
  mergeLoop grid_size areas.enum areas.enum ∅

/-- Embedding of `_merge_adjacent_areas` (lines 565-607): the merged
area list the source returns (the instrumented version with the ghost
groups dropped). -/
def mergeAdjacentAreas (areas : List Area) (grid_size : ℕ) : List Area :=
  (mergeAdjacentAreasG areas grid_size).map Prod.fst

/-- `big` contains `small` as rectangles. -/
def containsArea (big small : Area) : Prop :=
  big.left ≤ small.left ∧ big.top ≤ small.top ∧
  small.right ≤ big.right ∧ small.bottom ≤ big.bottom

/-! ## Grid-gap estimation (`_estimate_visual_regions_from_text_gaps`,
lines 454-563) -/

/-- A known text region collected at lines 473-478. -/
structure TextRegion where
  left : ℚ
  top : ℚ
  right : ℚ
  bottom : ℚ
deriving Repr, DecidableEq

/-- The grid cell of row `row`, column `col` (lines 493-496 and
510-518). -/
def gridCell (grid_size : ℕ) (row col : ℕ) : Area :=
  { left := (col : ℚ) / grid_size
    top := (row : ℚ) / grid_size
    right := ((col : ℚ) + 1) / grid_size
    bottom := ((row : ℚ) + 1) / grid_size
    width := 1 / (grid_size : ℚ)
    height := 1 / (grid_size : ℚ)
    area := (1 / (grid_size : ℚ)) ^ 2 }

/-- The overlap test of lines 499-506: the cell axis-aligned-overlaps
some known text region. -/
def overlapsAnyText (textRegions : List TextRegion) (cell : Area) : Bool :=
  textRegions.any (fun tr =>
    decide (cell.right > tr.left) && decide (cell.left < tr.right) &&
    decide (cell.bottom > tr.top) && decide (cell.top < tr.bottom))

/-- The row-major candidate collection of lines 490-518: a cell is a
candidate iff it overlaps no known text region. -/
def potentialImageAreas (grid_size : ℕ) (textRegions : List TextRegion) :
    List Area :=
  (List.range grid_size).flatMap (fun row =>
    (List.range grid_size).filterMap (fun col =>
      let cell := gridCell grid_size row col
      if overlapsAnyText textRegions cell then none else some cell))

/-- Embedding of the region list produced by
`_estimate_visual_regions_from_text_gaps` (lines 454-563): with fewer
than 2 known text regions the source returns early with nothing (lines
480-482); otherwise the `20 × 20` grid candidates are merged and
filtered to area within `[0.002, 0.8]` (lines 487-529). -/
def estimateVisualRegionsFromTextGaps (textRegions : List TextRegion) :
    List Area :=
  if textRegions.length < 2 then []
  else
    let grid_size : ℕ := 20
    let potential := potentialImageAreas grid_size textRegions
    let merged := mergeAdjacentAreas potential grid_size
    merged.filter (fun a =>
      decide ((2 : ℚ)/1000 ≤ a.area) && decide (a.area ≤ (8 : ℚ)/10))

/-! ## Invariants of the merge machinery -/

theorem containsArea_refl (a : Area) : containsArea a a :=
  ⟨le_refl _, le_refl _, le_refl _, le_refl _⟩

theorem containsArea_trans {a b c : Area} (h1 : containsArea a b)
    (h2 : containsArea b c) : containsArea a c :=
  ⟨le_trans h1.1 h2.1, le_trans h1.2.1 h2.2.1,
   le_trans h2.2.2.1 h1.2.2.1, le_trans h2.2.2.2 h1.2.2.2⟩

theorem mergeInto_contains_left (a b : Area) : containsArea (mergeInto a b) a :=
  ⟨min_le_left _ _, min_le_left _ _, le_max_left _ _, le_max_left _ _⟩

theorem mergeInto_contains_right (a b : Area) : containsArea (mergeInto a b) b :=
  ⟨min_le_right _ _, min_le_right _ _, le_max_right _ _, le_max_right _ _⟩

theorem absorbPass_used_iff (g : ℕ) (pairs : List (ℕ × Area)) :
    ∀ (cur : Area) (used : Finset ℕ) (x : ℕ),
      x ∈ (absorbPass g cur used pairs).2.1 ↔
        x ∈ used ∨ x ∈ (absorbPass g cur used pairs).2.2.2 := by
  induction pairs with
  | nil => intro cur used x; simp [absorbPass]
  | cons p rest ih =>
    intro cur used x
    obtain ⟨j, other⟩ := p
    by_cases hj : j ∈ used
    · simpa [absorbPass, hj] using ih cur used x
    · by_cases hadj : adjacentArea g cur other
      · have := ih (mergeInto cur other) (insert j used) x
        simp only [absorbPass, if_neg hj, if_pos hadj] at this ⊢
        rw [this]
        simp only [Finset.mem_insert, List.mem_cons]
        tauto
      · simpa [absorbPass, hj, hadj] using ih cur used x

theorem absorbPass_fresh (g : ℕ) (pairs : List (ℕ × Area)) :
    ∀ (cur : Area) (used : Finset ℕ) (j : ℕ),
      j ∈ (absorbPass g cur used pairs).2.2.2 → j ∉ used := by
  induction pairs with
  | nil => intro cur used j h; simp [absorbPass] at h
  | cons p rest ih =>
    intro cur used j h
    obtain ⟨i, other⟩ := p
    by_cases hi : i ∈ used
    · exact ih cur used j (by simpa [absorbPass, hi] using h)
    · by_cases hadj : adjacentArea g cur other
      · simp only [absorbPass, if_neg hi, if_pos hadj, List.mem_cons] at h
        rcases h with rfl | h
        · exact hi
        · have := ih (mergeInto cur other) (insert i used) j h
          intro hj
          exact this (Finset.mem_insert_of_mem hj)
      · exact ih cur used j (by simpa [absorbPass, hi, hadj] using h)

theorem absorbPass_nodup (g : ℕ) (pairs : List (ℕ × Area)) :
    ∀ (cur : Area) (used : Finset ℕ),
      (absorbPass g cur used pairs).2.2.2.Nodup := by
  induction pairs with
  | nil => intro cur used; simp [absorbPass]
  | cons p rest ih =>
    intro cur used
    obtain ⟨i, other⟩ := p
    by_cases hi : i ∈ used
    · simpa [absorbPass, hi] using ih cur used
    · by_cases hadj : adjacentArea g cur other
      · simp only [absorbPass, if_neg hi, if_pos hadj, List.nodup_cons]
        refine ⟨fun hmem => ?_, ih (mergeInto cur other) (insert i used)⟩
        exact absorbPass_fresh g rest (mergeInto cur other) (insert i used) i hmem
          (Finset.mem_insert_self i used)
      · simpa [absorbPass, hi, hadj] using ih cur used

theorem absorbPass_contains_cur (g : ℕ) (pairs : List (ℕ × Area)) :
    ∀ (cur : Area) (used : Finset ℕ),
      containsArea (absorbPass g cur used pairs).1 cur := by
  induction pairs with
  | nil => intro cur used; simpa [absorbPass] using containsArea_refl cur
  | cons p rest ih =>
    intro cur used
    obtain ⟨i, other⟩ := p
    by_cases hi : i ∈ used
    · simpa [absorbPass, hi] using ih cur used
    · by_cases hadj : adjacentArea g cur other
      · simp only [absorbPass, if_neg hi, if_pos hadj]
        exact containsArea_trans
          (ih (mergeInto cur other) (insert i used))
          (mergeInto_contains_left cur other)
      · simpa [absorbPass, hi, hadj] using ih cur used

theorem absorbPass_group_mem (g : ℕ) (pairs : List (ℕ × Area)) :
    ∀ (cur : Area) (used : Finset ℕ) (j : ℕ),
      j ∈ (absorbPass g cur used pairs).2.2.2 →
      ∃ a, (j, a) ∈ pairs ∧ containsArea (absorbPass g cur used pairs).1 a := by
  induction pairs with
  | nil => intro cur used j h; simp [absorbPass] at h
  | cons p rest ih =>
    intro cur used j h
    obtain ⟨i, other⟩ := p
    by_cases hi : i ∈ used
    · obtain ⟨a, hmem, hcon⟩ := ih cur used j (by simpa [absorbPass, hi] using h)
      exact ⟨a, List.mem_cons_of_mem _ hmem, by simpa [absorbPass, hi] using hcon⟩
    · by_cases hadj : adjacentArea g cur other
      · simp only [absorbPass, if_neg hi, if_pos hadj, List.mem_cons] at h ⊢
        rcases h with rfl | h
        · exact ⟨other, Or.inl rfl,
            containsArea_trans
              (absorbPass_contains_cur g rest (mergeInto cur other) (insert j used))
              (mergeInto_contains_right cur other)⟩
        · obtain ⟨a, hmem, hcon⟩ := ih (mergeInto cur other) (insert i used) j h
          exact ⟨a, Or.inr hmem, hcon⟩
      · obtain ⟨a, hmem, hcon⟩ := ih cur used j (by simpa [absorbPass, hi, hadj] using h)
        exact ⟨a, List.mem_cons_of_mem _ hmem, by simpa [absorbPass, hi, hadj] using hcon⟩

theorem absorbLoop_used_iff (g : ℕ) (pairs : List (ℕ × Area)) :
    ∀ (fuel : ℕ) (cur : Area) (used : Finset ℕ) (x : ℕ),
      x ∈ (absorbLoop g pairs fuel cur used).2.1 ↔
        x ∈ used ∨ x ∈ (absorbLoop g pairs fuel cur used).2.2 := by
  intro fuel
  induction fuel with
  | zero => intro cur used x; simp [absorbLoop]
  | succ fuel ih =>
    intro cur used x
    by_cases hch : (absorbPass g cur used pairs).2.2.1
    · simp only [absorbLoop, if_pos hch, List.mem_append]
      rw [ih (absorbPass g cur used pairs).1 (absorbPass g cur used pairs).2.1 x,
        absorbPass_used_iff g pairs cur used x]
      tauto
    · simpa [absorbLoop, hch] using absorbPass_used_iff g pairs cur used x

theorem absorbLoop_fresh (g : ℕ) (pairs : List (ℕ × Area)) :
    ∀ (fuel : ℕ) (cur : Area) (used : Finset ℕ) (j : ℕ),
      j ∈ (absorbLoop g pairs fuel cur used).2.2 → j ∉ used := by
  intro fuel
  induction fuel with
  | zero => intro cur used j h; simp [absorbLoop] at h
  | succ fuel ih =>
    intro cur used j h
    by_cases hch : (absorbPass g cur used pairs).2.2.1
    · simp only [absorbLoop, if_pos hch, List.mem_append] at h
      rcases h with h | h
      · exact absorbPass_fresh g pairs cur used j h
      · intro hj
        exact ih (absorbPass g cur used pairs).1 (absorbPass g cur used pairs).2.1 j h
          ((absorbPass_used_iff g pairs cur used j).mpr (Or.inl hj))
    · exact absorbPass_fresh g pairs cur used j (by simpa [absorbLoop, hch] using h)

theorem absorbLoop_nodup (g : ℕ) (pairs : List (ℕ × Area)) :
    ∀ (fuel : ℕ) (cur : Area) (used : Finset ℕ),
      (absorbLoop g pairs fuel cur used).2.2.Nodup := by
  intro fuel
  induction fuel with
  | zero => intro cur used; simp [absorbLoop]
  | succ fuel ih =>
    intro cur used
    by_cases hch : (absorbPass g cur used pairs).2.2.1
    · simp only [absorbLoop, if_pos hch, List.nodup_append]
      refine ⟨absorbPass_nodup g pairs cur used,
        ih (absorbPass g cur used pairs).1 (absorbPass g cur used pairs).2.1, ?_⟩
      intro x hx hx2
      exact absorbLoop_fresh g pairs fuel _ _ x hx2
        ((absorbPass_used_iff g pairs cur used x).mpr (Or.inr hx))
    · simpa [absorbLoop, hch] using absorbPass_nodup g pairs cur used

theorem absorbLoop_contains_cur (g : ℕ) (pairs : List (ℕ × Area)) :
    ∀ (fuel : ℕ) (cur : Area) (used : Finset ℕ),
      containsArea (absorbLoop g pairs fuel cur used).1 cur := by
  intro fuel
  induction fuel with
  | zero => intro cur used; simpa [absorbLoop] using containsArea_refl cur
  | succ fuel ih =>
    intro cur used
    by_cases hch : (absorbPass g cur used pairs).2.2.1
    · simp only [absorbLoop, if_pos hch]
      exact containsArea_trans
        (ih (absorbPass g cur used pairs).1 (absorbPass g cur used pairs).2.1)
        (absorbPass_contains_cur g pairs cur used)
    · simpa [absorbLoop, hch] using absorbPass_contains_cur g pairs cur used

theorem absorbLoop_group_mem (g : ℕ) (pairs : List (ℕ × Area)) :
    ∀ (fuel : ℕ) (cur : Area) (used : Finset ℕ) (j : ℕ),
      j ∈ (absorbLoop g pairs fuel cur used).2.2 →
      ∃ a, (j, a) ∈ pairs ∧ containsArea (absorbLoop g pairs fuel cur used).1 a := by
  intro fuel
  induction fuel with
  | zero => intro cur used j h; simp [absorbLoop] at h
  | succ fuel ih =>
    intro cur used j h
    by_cases hch : (absorbPass g cur used pairs).2.2.1
    · simp only [absorbLoop, if_pos hch, List.mem_append] at h ⊢
      rcases h with h | h
      · obtain ⟨a, hmem, hcon⟩ := absorbPass_group_mem g pairs cur used j h
        exact ⟨a, hmem, containsArea_trans
          (absorbLoop_contains_cur g pairs fuel _ _) hcon⟩
      · exact ih (absorbPass g cur used pairs).1 (absorbPass g cur used pairs).2.1 j h
    · obtain ⟨a, hmem, hcon⟩ :=
        absorbPass_group_mem g pairs cur used j (by simpa [absorbLoop, hch] using h)
      exact ⟨a, hmem, by simpa [absorbLoop, hch] using hcon⟩

theorem mergeLoop_group_mem (g : ℕ) (pairs : List (ℕ × Area)) :
    ∀ (todo : List (ℕ × Area)) (used : Finset ℕ),
      (∀ p ∈ todo, p ∈ pairs) →
      ∀ pr ∈ mergeLoop g pairs todo used, ∀ j ∈ pr.2,
        ∃ a, (j, a) ∈ pairs ∧ containsArea pr.1 a := by
  intro todo
  induction todo with
  | nil => intro used hsub pr hpr; simp [mergeLoop] at hpr
  | cons p rest ih =>
    intro used hsub pr hpr j hj
    obtain ⟨i, area0⟩ := p
    by_cases hi : i ∈ used
    · exact ih used (fun q hq => hsub q (List.mem_cons_of_mem _ hq)) pr
        (by simpa [mergeLoop, hi] using hpr) j hj
    · simp only [mergeLoop, if_neg hi, List.mem_cons] at hpr
      rcases hpr with rfl | hpr
      · simp only [List.mem_cons] at hj
        rcases hj with rfl | hj
        · exact ⟨area0, hsub (j, area0) (List.mem_cons_self _ _),
            absorbLoop_contains_cur g pairs (pairs.length + 1) area0 (insert j used)⟩
        · exact absorbLoop_group_mem g pairs (pairs.length + 1) area0 (insert i used) j hj
      · exact ih _ (fun q hq => hsub q (List.mem_cons_of_mem _ hq)) pr hpr j hj

theorem mergeLoop_join_fresh (g : ℕ) (pairs : List (ℕ × Area)) :
    ∀ (todo : List (ℕ × Area)) (used : Finset ℕ) (j : ℕ),
      j ∈ ((mergeLoop g pairs todo used).map Prod.snd).flatten → j ∉ used := by
  intro todo
  induction todo with
  | nil => intro used j h; simp [mergeLoop] at h
  | cons p rest ih =>
    intro used j h
    obtain ⟨i, area0⟩ := p
    by_cases hi : i ∈ used
    · exact ih used j (by simpa [mergeLoop, hi] using h)
    · simp only [mergeLoop, if_neg hi, List.map_cons, List.flatten_cons,
        List.mem_append, List.mem_cons] at h
      rcases h with (rfl | h) | h
      · exact hi
      · intro hj
        exact absorbLoop_fresh g pairs (pairs.length + 1) area0 (insert i used) j h
          (Finset.mem_insert_of_mem hj)
      · intro hj
        exact ih _ j h ((absorbLoop_used_iff g pairs (pairs.length + 1) area0
          (insert i used) j).mpr (Or.inl (Finset.mem_insert_of_mem hj)))

theorem mergeLoop_join_pairs (g : ℕ) (pairs : List (ℕ × Area)) :
    ∀ (todo : List (ℕ × Area)) (used : Finset ℕ),
      (∀ p ∈ todo, p ∈ pairs) →
      ∀ j ∈ ((mergeLoop g pairs todo used).map Prod.snd).flatten,
        ∃ a, (j, a) ∈ pairs := by
  intro todo used hsub j hj
  simp only [List.mem_flatten, List.mem_map] at hj
  obtain ⟨l, ⟨pr, hpr, rfl⟩, hjl⟩ := hj
  obtain ⟨a, ha, -⟩ := mergeLoop_group_mem g pairs todo used hsub pr hpr j hjl
  exact ⟨a, ha⟩

theorem mergeLoop_join_nodup (g : ℕ) (pairs : List (ℕ × Area)) :
    ∀ (todo : List (ℕ × Area)) (used : Finset ℕ),
      ((mergeLoop g pairs todo used).map Prod.snd).flatten.Nodup := by
  intro todo
  induction todo with
  | nil => intro used; simp [mergeLoop]
  | cons p rest ih =>
    intro used
    obtain ⟨i, area0⟩ := p
    by_cases hi : i ∈ used
    · simpa [mergeLoop, hi] using ih used
    · simp only [mergeLoop, if_neg hi, List.map_cons, List.flatten_cons,
        List.nodup_append]
      refine ⟨?_, ih _, ?_⟩
      · refine List.nodup_cons.mpr ⟨fun hmem => ?_,
          absorbLoop_nodup g pairs (pairs.length + 1) area0 (insert i used)⟩
        exact absorbLoop_fresh g pairs (pairs.length + 1) area0 (insert i used) i hmem
          (Finset.mem_insert_self i used)
      · intro x hx hx2
        have hxu : x ∈ (absorbLoop g pairs (pairs.length + 1) area0 (insert i used)).2.1 := by
          rw [absorbLoop_used_iff]
          rcases List.mem_cons.mp hx with rfl | hx
          · exact Or.inl (Finset.mem_insert_self x used)
          · exact Or.inr hx
        exact mergeLoop_join_fresh g pairs rest _ x hx2 hxu

theorem mergeLoop_complete (g : ℕ) (pairs : List (ℕ × Area)) :
    ∀ (todo : List (ℕ × Area)) (used : Finset ℕ) (i : ℕ) (a : Area),
      (i, a) ∈ todo → i ∉ used →
      i ∈ ((mergeLoop g pairs todo used).map Prod.snd).flatten := by
  intro todo
  induction todo with
  | nil => intro used i a h; simp at h
  | cons p rest ih =>
    intro used i a hmem hi
    obtain ⟨i0, area0⟩ := p
    by_cases hi0 : i0 ∈ used
    · rcases List.mem_cons.mp hmem with heq | hmem
      · obtain ⟨rfl, rfl⟩ := Prod.mk.injEq .. |>.mp heq
        exact absurd hi0 hi
      · simpa [mergeLoop, hi0] using ih used i a hmem hi
    · simp only [mergeLoop, if_neg hi0, List.map_cons, List.flatten_cons,
        List.mem_append, List.mem_cons]
      rcases List.mem_cons.mp hmem with heq | hmem
      · exact Or.inl (Or.inl ((Prod.mk.injEq ..).mp heq).1)
      · by_cases hiu : i ∈ (absorbLoop g pairs (pairs.length + 1) area0 (insert i0 used)).2.1
        · rcases (absorbLoop_used_iff g pairs (pairs.length + 1) area0
            (insert i0 used) i).mp hiu with hins | hgrp
          · rcases Finset.mem_insert.mp hins with rfl | hins
            · exact Or.inl (Or.inl rfl)
            · exact absurd hins hi
          · exact Or.inl (Or.inr hgrp)
        · exact Or.inr (ih _ i a hmem hiu)

theorem mergeLoop_snd_nonempty (g : ℕ) (pairs : List (ℕ × Area)) :
    ∀ (todo : List (ℕ × Area)) (used : Finset ℕ),
      ∀ pr ∈ mergeLoop g pairs todo used, pr.2 ≠ [] := by
  intro todo
  induction todo with
  | nil => intro used pr h; simp [mergeLoop] at h
  | cons p rest ih =>
    intro used pr hpr
    obtain ⟨i, area0⟩ := p
    by_cases hi : i ∈ used
    · exact ih used pr (by simpa [mergeLoop, hi] using hpr)
    · simp only [mergeLoop, if_neg hi, List.mem_cons] at hpr
      rcases hpr with rfl | hpr
      · simp
      · exact ih _ pr hpr

theorem length_le_flatten_length :
    ∀ (L : List (List ℕ)), (∀ l ∈ L, l ≠ []) → L.length ≤ L.flatten.length := by
  intro L
  induction L with
  | nil => intro; simp
  | cons l rest ih =>
    intro h
    have hl : l ≠ [] := h l (List.mem_cons_self _ _)
    have : 1 ≤ l.length := List.length_pos.mpr hl
    simp only [List.length_cons, List.flatten_cons, List.length_append]
    have := ih (fun q hq => h q (List.mem_cons_of_mem _ hq))
    omega

theorem absorbLoop_two_steps (g : ℕ) (pairs : List (ℕ × Area)) (fuel : ℕ)
    (cur c1 : Area) (used u1 : Finset ℕ) (grp1 : List ℕ)
    (h1 : absorbPass g cur used pairs = (c1, u1, true, grp1))
    (h2 : absorbPass g c1 u1 pairs = (c1, u1, false, [])) :
    absorbLoop g pairs (fuel + 1 + 1) cur used = (c1, u1, grp1) := by
  simp [absorbLoop, h1, h2]

/-! ## Concrete inputs used by the witnesses and counterexamples -/

/-- The top-left cell of a 20-grid. -/
def cellTopLeft : Area :=
  { left := 0, top := 0, right := 1/20, bottom := 1/20,
    width := 1/20, height := 1/20, area := 1/400 }

/-- A cell in the column adjacent to `cellTopLeft`, at the bottom edge
of the page. -/
def cellBottomNextColumn : Area :=
  { left := 1/20, top := 19/20, right := 1/10, bottom := 1,
    width := 1/20, height := 1/20, area := 1/400 }

/-- A matched text block whose box center is `(0.5, 0.5)`. -/
def exKeywordBlock : TextBlockMatch :=
  { block_idx := 1, text := "エッグチェアの写真", keyword := "エッグチェア",
    left := 1/4, top := 1/4, right := 3/4, bottom := 3/4 }

/-- The normalized box `{left: 0.1, top: 0.1, right: 0.3, bottom: 0.3}`. -/
def exCropBox : BBoxQ :=
  { left := 1/10, top := 1/10, right := 3/10, bottom := 3/10,
    width := 2/10, height := 2/10 }

/-- A `1000 × 1000` raster for page 1. -/
def pageRaster1000 : PageImage :=
  { page := 1, pixel_width := 1000, pixel_height := 1000 }

/-- A figure with a degenerate box (`left == right == 0.5`). -/
def degenerateFigure : Figure :=
  { page := 1, element_id := "estimated_1", type := "estimated_figure",
    bounding_box := { left := 1/2, top := 1/10, right := 1/2, bottom := 9/10,
                      width := 0, height := 8/10 } }

/-- A figure placed on page 2, for which no raster exists. -/
def orphanFigure : Figure :=
  { page := 2, element_id := "figure_orphan", type := "figure",
    bounding_box := exCropBox }

/-- A figure on page 1 whose crop succeeds. -/
def okFigure : Figure :=
  { page := 1, element_id := "figure_ok", type := "figure",
    bounding_box := exCropBox }

/-- A block carrying a well-formed 4-point polygon and no text anchor. -/
def boxOnlyBlock : Block :=
  { layout := some
      { text_anchor := none
        bounding_poly := some
          { normalized_vertices := some
              [ { x := some (1/10), y := some (1/10) }
              , { x := some (6/10), y := some (1/10) }
              , { x := some (6/10), y := some (1/2) }
              , { x := some (1/10), y := some (1/2) } ] } } }

/-- A text segment with in-range and past-the-end indices. -/
def exSegment : TextSegment := { start_index := some 2, end_index := some 99 }

/-! ## Claims -/

/-- C3: `_estimate_visual_regions_from_text_gaps` returns the empty
region list whenever fewer than 2 known text regions are supplied
(source lines 480-482 return early). -/
theorem estimate_gaps_insufficient_empty (textRegions : List TextRegion)
    (h : textRegions.length < 2) :
    estimateVisualRegionsFromTextGaps textRegions = [] := by
  simp [estimateVisualRegionsFromTextGaps, h]

/-- Witness for C3: the 1-region input triggers the early return. -/
theorem estimate_gaps_insufficient_empty_witness :
    ([⟨0, 0, 1, 1⟩] : List TextRegion).length < 2 ∧
    estimateVisualRegionsFromTextGaps [⟨0, 0, 1, 1⟩] = [] :=
  ⟨by decide, estimate_gaps_insufficient_empty [⟨0, 0, 1, 1⟩] (by decide)⟩

/-- C4: the keyword estimator derives the box as
`left = max(0, cx - offset.left)`, `right = min(1, cx + offset.right)`,
`top = max(0, cy - offset.top)`, `bottom = min(1, cy + offset.bottom)`
from the element's box center `(cx, cy)`; with center `(0.5, 0.5)` and
the default offsets the bounding box is
`{left: 0.35, top: 0.4, right: 0.65, bottom: 0.6}`. -/
theorem keyword_estimate_box_formula :
    (∀ (offset : AreaOffset) (tb : TextBlockMatch) (k : String) (n : ℕ),
      (createEstimatedImageArea offset tb k n).bounding_box.left
          = max 0 ((tb.left + tb.right) / 2 - offset.left) ∧
      (createEstimatedImageArea offset tb k n).bounding_box.right
          = min 1 ((tb.left + tb.right) / 2 + offset.right) ∧
      (createEstimatedImageArea offset tb k n).bounding_box.top
          = max 0 ((tb.top + tb.bottom) / 2 - offset.top) ∧
      (createEstimatedImageArea offset tb k n).bounding_box.bottom
          = min 1 ((tb.top + tb.bottom) / 2 + offset.bottom)) ∧
    (createEstimatedImageArea defaultAreaOffset exKeywordBlock "エッグチェア" 1).bounding_box
        = { left := 35/100, top := 4/10, right := 65/100, bottom := 6/10,
            width := 3/10, height := 2/10 } := by
  constructor
  · intro offset tb k n
    exact ⟨rfl, rfl, rfl, rfl⟩
  · simp only [createEstimatedImageArea, defaultAreaOffset, exKeywordBlock]
    norm_num [max_def, min_def]

/-- C5: `_crop_figure_from_page` converts the normalized box by
`int(coord * pixel_dimension)`, which for the nonnegative coordinates
of a normalized box is the floor; for box
`{left: 0.1, top: 0.1, right: 0.3, bottom: 0.3}` on a `1000 × 1000`
raster the pixel box is `{left: 100, top: 100, right: 300, bottom: 300}`. -/
theorem crop_pixel_floor :
    (∀ (bbox : BBoxQ) (w h : ℕ), 0 ≤ bbox.left → 0 ≤ bbox.top →
      0 ≤ bbox.right → 0 ≤ bbox.bottom →
      cropPixelBox bbox w h =
        { left := ⌊bbox.left * w⌋, top := ⌊bbox.top * h⌋,
          right := ⌊bbox.right * w⌋, bottom := ⌊bbox.bottom * h⌋ }) ∧
    cropPixelBox exCropBox 1000 1000 =
      { left := 100, top := 100, right := 300, bottom := 300 } := by
  have hpy : ∀ q : ℚ, 0 ≤ q → pyInt q = ⌊q⌋ := by
    intro q hq
    simp [pyInt, not_lt.mpr hq]
  constructor
  · intro bbox w h h1 h2 h3 h4
    simp only [cropPixelBox]
    rw [hpy _ (mul_nonneg h1 (Nat.cast_nonneg w)),
        hpy _ (mul_nonneg h2 (Nat.cast_nonneg h)),
        hpy _ (mul_nonneg h3 (Nat.cast_nonneg w)),
        hpy _ (mul_nonneg h4 (Nat.cast_nonneg h))]
  · simp only [cropPixelBox, exCropBox]
    norm_num [pyInt]

/-- Witness for C5: the general floor form applied to the concrete box
and raster of the claim. -/
theorem crop_pixel_floor_witness :
    (0 ≤ exCropBox.left ∧ 0 ≤ exCropBox.top ∧
     0 ≤ exCropBox.right ∧ 0 ≤ exCropBox.bottom) ∧
    cropPixelBox exCropBox 1000 1000 =
      { left := ⌊exCropBox.left * (1000 : ℕ)⌋, top := ⌊exCropBox.top * (1000 : ℕ)⌋,
        right := ⌊exCropBox.right * (1000 : ℕ)⌋, bottom := ⌊exCropBox.bottom * (1000 : ℕ)⌋ } :=
  ⟨⟨by norm_num [exCropBox], by norm_num [exCropBox], by norm_num [exCropBox],
    by norm_num [exCropBox]⟩,
   crop_pixel_floor.1 exCropBox 1000 1000 (by norm_num [exCropBox])
     (by norm_num [exCropBox]) (by norm_num [exCropBox]) (by norm_num [exCropBox])⟩

/-- C9: every keyword-estimated region records `page = 1` regardless of
the matched element, so the raster lookup of `_extract_figure_images`
for such a region always searches for the page-1 raster. -/
theorem keyword_estimate_page_one (offset : AreaOffset) (tb : TextBlockMatch)
    (k : String) (n : ℕ) (page_images : List PageImage) :
    (createEstimatedImageArea offset tb k n).page = 1 ∧
    findPageImage page_images (createEstimatedImageArea offset tb k n).page
      = page_images.find? (fun img => img.page == 1) :=
  ⟨rfl, rfl⟩

/-- C1 counterexample: on the degenerate box with `left == right ==
0.5`, the spec's checked cropper reports `InvalidBox`, but the source
`_crop_figure_from_page` performs no validation and computes the
zero-width pixel box `{left: 500, top: 100, right: 500, bottom: 900}`,
which it hands straight to PIL `crop`. -/
theorem crop_degenerate_not_rejected :
    cropSpecChecked degenerateFigure.bounding_box 1000 1000
        = Except.error CropError.invalidBox ∧
    cropFigureFromPage degenerateFigure pageRaster1000 =
      some { page := 1, element_id := "estimated_1",
             pixel_coordinates := { left := 500, top := 100, right := 500, bottom := 900 },
             width := 0, height := 800 } := by
  constructor
  · simp only [cropSpecChecked, cropPixelBox, degenerateFigure]
    norm_num [pyInt]
  · simp only [cropFigureFromPage, degenerateFigure, pageRaster1000]
    norm_num [pyInt]

/-- C1 amended: `_crop_figure_from_page` performs no box validation;
a box with `left == right` is converted to a pixel box with equal left
and right edges (width 0) and passed on, with no `InvalidBox` error
anywhere in the pipeline. -/
theorem crop_degenerate_passes_through (fig : Figure) (img : PageImage)
    (h : fig.bounding_box.left = fig.bounding_box.right) :
    cropFigureFromPage fig img =
      some { page := fig.page, element_id := fig.element_id,
             pixel_coordinates :=
               { left := pyInt (fig.bounding_box.left * img.pixel_width)
                 top := pyInt (fig.bounding_box.top * img.pixel_height)
                 right := pyInt (fig.bounding_box.left * img.pixel_width)
                 bottom := pyInt (fig.bounding_box.bottom * img.pixel_height) }
             width := 0
             height := pyInt (fig.bounding_box.bottom * img.pixel_height)
                 - pyInt (fig.bounding_box.top * img.pixel_height) } := by
  simp [cropFigureFromPage, ← h]

/-- Witness for the amended C1 at the concrete degenerate figure. -/
theorem crop_degenerate_passes_through_witness :
    degenerateFigure.bounding_box.left = degenerateFigure.bounding_box.right ∧
    cropFigureFromPage degenerateFigure pageRaster1000 =
      some { page := degenerateFigure.page, element_id := degenerateFigure.element_id,
             pixel_coordinates :=
               { left := pyInt (degenerateFigure.bounding_box.left * pageRaster1000.pixel_width)
                 top := pyInt (degenerateFigure.bounding_box.top * pageRaster1000.pixel_height)
                 right := pyInt (degenerateFigure.bounding_box.left * pageRaster1000.pixel_width)
                 bottom := pyInt (degenerateFigure.bounding_box.bottom * pageRaster1000.pixel_height) }
             width := 0
             height := pyInt (degenerateFigure.bounding_box.bottom * pageRaster1000.pixel_height)
                 - pyInt (degenerateFigure.bounding_box.top * pageRaster1000.pixel_height) } :=
  ⟨rfl, crop_degenerate_passes_through degenerateFigure pageRaster1000 rfl⟩

/-- C2 counterexample: a block with a well-formed 4-point polygon but
no text anchor resolves 4 coordinates, yet
`_extract_text_block_with_coordinates` returns `None` for it (source
line 324 keys the return on the stripped text alone). -/
theorem resolve_box_only_dropped :
    (blockCoordinates boxOnlyBlock).length = 4 ∧
    extractTextBlockWithCoordinates boxOnlyBlock "hello" 1 1 = none := by
  constructor
  · rfl
  · rfl

/-- C2 amended: `_extract_text_block_with_coordinates` returns `None`
exactly when the resolved text is empty after stripping whitespace —
an element with a usable box but no text is dropped, not returned. -/
theorem resolve_none_iff_text_blank (block : Block) (full_text : String)
    (page_num block_num : ℕ) :
    extractTextBlockWithCoordinates block full_text page_num block_num = none ↔
      (pyStrip (blockSourceText block full_text)).data.isEmpty = true := by
  unfold extractTextBlockWithCoordinates
  by_cases h : (pyStrip (blockSourceText block full_text)).data.isEmpty <;> simp [h]

/-- C6 counterexample: the claim says a negative segment index is
clamped to `[0, len(full_text)]`, which on `"hello"[-3:2]` would give
`"he"`; Python slicing (what line 299 executes) interprets `-3`
relative to the end of the string and yields `""`. -/
theorem slice_negative_index_not_clamped :
    pySlice "hello" (-3) 2 = "" ∧ specClampSlice "hello" (-3) 2 = "he" :=
  ⟨rfl, rfl⟩

/-- C6 amended: for nonnegative segment indices (missing index fields
resolve to 0, hence are nonnegative) the substring resolution clamps
past-the-end indices to the text length and never raises; a negative
index is instead interpreted relative to the end of the string. -/
theorem slice_nonneg_clamped (full_text : String) (seg : TextSegment)
    (ha : 0 ≤ seg.start_index.getD 0) (hb : 0 ≤ seg.end_index.getD 0) :
    segmentText full_text seg =
      specClampSlice full_text (seg.start_index.getD 0) (seg.end_index.getD 0) := by
  unfold segmentText pySlice specClampSlice
  simp [not_lt.mpr ha, not_lt.mpr hb, max_eq_left ha, max_eq_left hb]

/-- Witness for the amended C6: segment `[2:99]` of `"hello"` resolves
to `"llo"`, the past-the-end index clamped to the length. -/
theorem slice_nonneg_clamped_witness :
    0 ≤ exSegment.start_index.getD 0 ∧ 0 ≤ exSegment.end_index.getD 0 ∧
    segmentText "hello" exSegment =
      specClampSlice "hello" (exSegment.start_index.getD 0) (exSegment.end_index.getD 0) ∧
    segmentText "hello" exSegment = "llo" :=
  ⟨by decide, by decide,
   slice_nonneg_clamped "hello" exSegment (by decide) (by decide), rfl⟩

/-- C8 counterexample: with a page-2 figure whose raster is missing
and a page-1 figure that crops fine, `_extract_figure_images` still
processes the sibling (isolation holds), but the output carries only
the successful crop — the failure is printed and dropped, never
collected or surfaced alongside the results. -/
theorem crop_failure_leaves_no_trace :
    extractFigureImages [orphanFigure, okFigure] [pageRaster1000] =
      [ { page := 1, element_id := "figure_ok",
          pixel_coordinates := { left := 100, top := 100, right := 300, bottom := 300 },
          width := 200, height := 200 } ] ∧
    ∀ c ∈ extractFigureImages [orphanFigure, okFigure] [pageRaster1000],
      c.element_id ≠ "figure_orphan" := by
  have hres : extractFigureImages [orphanFigure, okFigure] [pageRaster1000] =
      [ { page := 1, element_id := "figure_ok",
          pixel_coordinates := { left := 100, top := 100, right := 300, bottom := 300 },
          width := 200, height := 200 } ] := by
    simp only [extractFigureImages, findPageImage, cropFigureFromPage,
      orphanFigure, okFigure, pageRaster1000, exCropBox]
    norm_num [pyInt, List.filterMap_cons, List.find?,
      show ((1 : ℕ) == 2) = false from rfl, show ((1 : ℕ) == 1) = true from rfl]
  refine ⟨hres, ?_⟩
  rw [hres]
  intro c hc
  simp only [List.mem_singleton] at hc
  subst hc
  decide

/-- C8 amended: per-element failures are isolated — a figure whose
raster lookup or crop fails is skipped while every figure that
resolves a raster and crops successfully still reaches the output, and
a text block that resolves is kept no matter what its siblings do; but
failures are only logged and dropped, not collected alongside the
results. -/
theorem per_element_failures_isolated :
    (∀ (figs : List Figure) (imgs : List PageImage) (fig : Figure)
       (img : PageImage) (c : CroppedInfo),
      fig ∈ figs →
      (fig.type = "figure" ∨ fig.type = "estimated_figure" ∨
       fig.type = "potential_image") →
      findPageImage imgs fig.page = some img →
      cropFigureFromPage fig img = some c →
      c ∈ extractFigureImages figs imgs) ∧
    (∀ (blocks : List Block) (full_text : String) (page_num i : ℕ)
       (d : BlockData) (hi : i < blocks.length),
      extractTextBlockWithCoordinates (blocks.get ⟨i, hi⟩) full_text page_num (i + 1)
        = some d →
      d ∈ processPageBlocks blocks full_text page_num) := by
  constructor
  · intro figs imgs fig img c hmem htype hfind hcrop
    unfold extractFigureImages
    refine List.mem_filterMap.mpr ⟨fig, ?_, ?_⟩
    · refine List.mem_filter.mpr ⟨hmem, ?_⟩
      rcases htype with h | h | h <;> simp [h]
    · rw [hfind]
      simpa using hcrop
  · intro blocks full_text page_num i d hi hex
    unfold processPageBlocks
    refine List.mem_filterMap.mpr ⟨(i, blocks.get ⟨i, hi⟩), ?_, hex⟩
    exact List.mk_mem_enum_iff_getElem?.mpr (List.getElem?_eq_getElem hi)

/-- Witness for the amended C8: the successful page-1 crop is in the
output even though its input list also contains the failing page-2
figure. -/
theorem per_element_failures_isolated_witness :
    okFigure ∈ [orphanFigure, okFigure] ∧
    findPageImage [pageRaster1000] okFigure.page = some pageRaster1000 ∧
    ({ page := 1, element_id := "figure_ok",
       pixel_coordinates := { left := 100, top := 100, right := 300, bottom := 300 },
       width := 200, height := 200 } : CroppedInfo) ∈
      extractFigureImages [orphanFigure, okFigure] [pageRaster1000] := by
  have hfind : findPageImage [pageRaster1000] okFigure.page = some pageRaster1000 := rfl
  have hcrop : cropFigureFromPage okFigure pageRaster1000 =
      some { page := 1, element_id := "figure_ok",
             pixel_coordinates := { left := 100, top := 100, right := 300, bottom := 300 },
             width := 200, height := 200 } := by
    simp only [cropFigureFromPage, okFigure, pageRaster1000, exCropBox]
    norm_num [pyInt]
  exact ⟨by simp, hfind,
    per_element_failures_isolated.1 [orphanFigure, okFigure] [pageRaster1000]
      okFigure pageRaster1000 _ (by simp) (Or.inl rfl) hfind hcrop⟩

/-- C7: `_merge_adjacent_areas` outputs at most as many regions as it
was given, and the input indices partition into the output groups:
every input region is absorbed into exactly one output region, whose
bounding box contains it. -/
theorem merge_adjacent_partitions (areas : List Area) (grid_size : ℕ) :
    (mergeAdjacentAreas areas grid_size).length ≤ areas.length ∧
    ∃ groups : List (List ℕ),
      groups.length = (mergeAdjacentAreas areas grid_size).length ∧
      groups.flatten.Perm (List.range areas.length) ∧
      ∀ pr ∈ (mergeAdjacentAreas areas grid_size).zip groups, ∀ j ∈ pr.2,
        ∃ h : j < areas.length, containsArea pr.1 (areas.get ⟨j, h⟩) := by
  have hsub : ∀ p ∈ areas.enum, p ∈ areas.enum := fun p h => h
  have hnodupJ :
      ((mergeAdjacentAreasG areas grid_size).map Prod.snd).flatten.Nodup :=
    mergeLoop_join_nodup grid_size areas.enum areas.enum ∅
  have hmemJ : ∀ x,
      x ∈ ((mergeAdjacentAreasG areas grid_size).map Prod.snd).flatten ↔
        x ∈ List.range areas.length := by
    intro x
    constructor
    · intro hx
      obtain ⟨a, ha⟩ :=
        mergeLoop_join_pairs grid_size areas.enum areas.enum ∅ hsub x hx
      obtain ⟨hlt, -⟩ :=
        List.getElem?_eq_some_iff.mp (List.mk_mem_enum_iff_getElem?.mp ha)
      exact List.mem_range.mpr hlt
    · intro hx
      have hlt := List.mem_range.mp hx
      exact mergeLoop_complete grid_size areas.enum areas.enum ∅ x (areas.get ⟨x, hlt⟩)
        (List.mk_mem_enum_iff_getElem?.mpr (List.getElem?_eq_getElem hlt))
        (Finset.not_mem_empty x)
  have hperm :
      ((mergeAdjacentAreasG areas grid_size).map Prod.snd).flatten.Perm
        (List.range areas.length) :=
    (List.perm_ext_iff_of_nodup hnodupJ (List.nodup_range _)).mpr hmemJ
  have hne : ∀ l ∈ (mergeAdjacentAreasG areas grid_size).map Prod.snd, l ≠ [] := by
    intro l hl
    obtain ⟨pr, hpr, rfl⟩ := List.mem_map.mp hl
    exact mergeLoop_snd_nonempty grid_size areas.enum areas.enum ∅ pr hpr
  have hlen : (mergeAdjacentAreas areas grid_size).length =
      ((mergeAdjacentAreasG areas grid_size).map Prod.snd).length := by
    simp [mergeAdjacentAreas]
  have hcount : (mergeAdjacentAreas areas grid_size).length ≤ areas.length := by
    rw [hlen]
    calc ((mergeAdjacentAreasG areas grid_size).map Prod.snd).length
        ≤ ((mergeAdjacentAreasG areas grid_size).map Prod.snd).flatten.length :=
          length_le_flatten_length _ hne
      _ = (List.range areas.length).length := hperm.length_eq
      _ = areas.length := List.length_range _
  refine ⟨hcount, (mergeAdjacentAreasG areas grid_size).map Prod.snd,
    hlen.symm, hperm, ?_⟩
  intro pr hpr j hj
  have hzip : (mergeAdjacentAreas areas grid_size).zip
      ((mergeAdjacentAreasG areas grid_size).map Prod.snd) =
        mergeAdjacentAreasG areas grid_size := by
    simp only [mergeAdjacentAreas]
    rw [List.zip_map']
    simp
  rw [hzip] at hpr
  obtain ⟨a, ha, hcon⟩ :=
    mergeLoop_group_mem grid_size areas.enum areas.enum ∅ hsub pr hpr j hj
  obtain ⟨hlt, hget⟩ :=
    List.getElem?_eq_some_iff.mp (List.mk_mem_enum_iff_getElem?.mp ha)
  exact ⟨hlt, by rw [show areas.get ⟨j, hlt⟩ = a from hget]; exact hcon⟩

/-- Witness for C7 at a concrete two-cell input. -/
theorem merge_adjacent_partitions_witness :
    (mergeAdjacentAreas [cellTopLeft, cellBottomNextColumn] 20).length ≤
      ([cellTopLeft, cellBottomNextColumn] : List Area).length :=
  (merge_adjacent_partitions [cellTopLeft, cellBottomNextColumn] 20).1

/-- C10: the adjacency test of `_merge_adjacent_areas` compares only
opposite edge coordinates and never requires overlap along the
perpendicular axis, so two regions whose facing vertical edges
coincide are merged into their bounding union no matter where each
sits vertically. -/
theorem merge_ignores_perpendicular_axis (a b : Area) (grid_size : ℕ)
    (hg : 0 < grid_size) (hedge : a.right = b.left) :
    mergeAdjacentAreas [a, b] grid_size = [mergeInto a b] := by
  have hgq : (0 : ℚ) < grid_size := by exact_mod_cast hg
  have htol : (0 : ℚ) < 1 / (grid_size : ℚ) * (11/10) := by positivity
  have hadj : adjacentArea grid_size a b :=
    Or.inl (by rw [hedge, sub_self, abs_zero]; exact htol)
  have hpass1 : absorbPass grid_size a ({0} : Finset ℕ) [(0, a), (1, b)]
      = (mergeInto a b, insert 1 ({0} : Finset ℕ), true, [1]) := by
    simp [absorbPass, hadj, Finset.mem_insert]
  have hpass2 : absorbPass grid_size (mergeInto a b)
        (insert 1 ({0} : Finset ℕ)) [(0, a), (1, b)]
      = (mergeInto a b, insert 1 ({0} : Finset ℕ), false, []) := by
    simp [absorbPass, Finset.mem_insert]
  have hloop : absorbLoop grid_size [(0, a), (1, b)] 3 a ({0} : Finset ℕ)
      = (mergeInto a b, insert 1 ({0} : Finset ℕ), [1]) := by
    rw [show (3 : ℕ) = 1 + 1 + 1 from rfl]
    exact absorbLoop_two_steps grid_size [(0, a), (1, b)] 1 a (mergeInto a b)
      ({0} : Finset ℕ) (insert 1 ({0} : Finset ℕ)) [1] hpass1 hpass2
  have henum : ([a, b] : List Area).enum = [(0, a), (1, b)] := rfl
  simp [mergeAdjacentAreas, mergeAdjacentAreasG, henum, mergeLoop, hloop,
    Finset.mem_insert]

/-- Witness for C10: the top-left cell and a bottom-edge cell of the
adjacent column — at opposite vertical ends of the page — are merged
into a single region spanning the whole left edge. -/
theorem merge_ignores_perpendicular_axis_witness :
    (0 : ℕ) < 20 ∧ cellTopLeft.right = cellBottomNextColumn.left ∧
    mergeAdjacentAreas [cellTopLeft, cellBottomNextColumn] 20 =
      [mergeInto cellTopLeft cellBottomNextColumn] :=
  ⟨by decide, rfl,
   merge_ignores_perpendicular_axis cellTopLeft cellBottomNextColumn 20
     (by decide) rfl⟩

end DocumentAI
